import Mathlib

/-!
# prom-label-proxy: verification of the label-enforcement core

A shallow embedding of the request-rewriting and response-filtering engine of
prom-label-proxy (package `injectproxy`), together with theorems checking the
natural-language specification against it.

The embedding follows the Go source:
* `enforce.go` (`PromQLEnforcer`, `Enforce`, `EnforceNode`, `EnforceMatchers`),
* `inject.go` (`SetRecursive`, `enforceLabelMatchers`),
* `routes.go` (`routes.ServeHTTP`, `routes.query`, `routes.matcher`,
  `matchersToString`),
* `rules.go` (`modifyAPIResponse`, `routes.rules`),
* `silences.go` (`routes.enforceFilterParameter`, `routes.postSilence`,
  `routes.filterSilences`, `hasMatcherForLabel`).

Go slices become `List`, `nil`-able pointers become `Option`, fallible code
returns `Except`, and in-place AST mutation becomes an explicit rebuild of the
node.  Go `map[string]*labels.Matcher` (keyed by label name) becomes a list of
matchers looked up by name; map semantics (at most one entry per name) is a
`Nodup` hypothesis where a theorem needs it.
-/

namespace PromLabelProxy

/-! ## Label matchers (`prometheus/model/labels.Matcher`) -/

/-- The four PromQL label-matcher operators. -/
inductive MatchType where
  | equal
  | notEqual
  | regexp
  | notRegexp
deriving DecidableEq, Repr

/-- A label matcher `(name, op, value)`. -/
structure Matcher where
  name : String
  mtype : MatchType
  value : String
deriving DecidableEq, Repr

/-- Serialization of the operator, as in `labels.MatchType.String`. -/
def MatchType.toGoString : MatchType → String
  | .equal => "="
  | .notEqual => "!="
  | .regexp => "=~"
  | .notRegexp => "!~"

/-- Go `%q` escaping of a character (the cases that occur in label values). -/
def quoteChar (c : Char) : String :=
  if c = '"' ∨ c = '\\' then "\\" ++ c.toString else c.toString

/-- Go `%q` quoting of a string. -/
def goQuote (s : String) : String :=
  "\"" ++ String.join (s.toList.map quoteChar) ++ "\""

/-- `labels.Matcher.String`: `fmt.Sprintf("%s%s%q", m.Name, m.Type, m.Value)`. -/
def Matcher.toGoString (m : Matcher) : String :=
  m.name ++ m.mtype.toGoString ++ goQuote m.value

/-- Equality of the `String()` forms of two matchers.  Since `%q` quoting is
injective, two matchers render to the same string exactly when their
components agree; the Go source compares `matcher.String() != target.String()`
and this embedding compares the components directly. -/
def Matcher.sameString (a b : Matcher) : Bool :=
  a.name == b.name && a.mtype == b.mtype && a.value == b.value

/-- `matchersToString` from `routes.go`: `{m1,m2,...}`. -/
def matchersToString (ms : List Matcher) : String :=
  "\x7b" ++ String.intercalate "," (ms.map Matcher.toGoString) ++ "\x7d"

/-! ## The PromQL enforcer (`enforce.go`) -/

/-- Errors surfaced by the enforcer (`ErrQueryParse`, `ErrIllegalLabelMatcher`,
`ErrEnforceLabel`), plus `unhandled`, which models the `panic` in the
`default` branch of `EnforceNode`'s type switch. -/
inductive EnfError where
  | queryParse
  | illegalLabelMatcher
  | enforceLabel
  | unhandled
deriving DecidableEq, Repr

/-- Lookup in the enforcer's `labelMatchers` map by label name. -/
def findMatcher (lms : List Matcher) (name : String) : Option Matcher :=
  lms.find? (fun m => m.name == name)

/-- The loop over `targets` in `PromQLEnforcer.EnforceMatchers`: an existing
matcher whose name carries an enforced matcher either triggers
`ErrIllegalLabelMatcher` (when `errorOnReplace` is set and the two matchers
render differently), or is dropped when the enforced matcher is an equality
matcher, or is kept. -/
def enforceMatchersLoop (lms : List Matcher) (errorOnReplace : Bool) :
    List Matcher → Except EnfError (List Matcher)
  | [] => .ok []
  | target :: rest =>
    match findMatcher lms target.name with
    | some matcher =>
      if errorOnReplace && !(matcher.sameString target) then
        .error .illegalLabelMatcher
      else if matcher.mtype = .equal then
        enforceMatchersLoop lms errorOnReplace rest
      else
        match enforceMatchersLoop lms errorOnReplace rest with
        | .error e => .error e
        | .ok rs => .ok (target :: rs)
    | none =>
      match enforceMatchersLoop lms errorOnReplace rest with
      | .error e => .error e
      | .ok rs => .ok (target :: rs)

/-- `PromQLEnforcer.EnforceMatchers`: process the existing matchers, then
append every enforced matcher. -/
def EnforceMatchers (lms : List Matcher) (errorOnReplace : Bool)
    (targets : List Matcher) : Except EnfError (List Matcher) :=
  match enforceMatchersLoop lms errorOnReplace targets with
  | .error e => .error e
  | .ok res => .ok (res ++ lms)

/-- Whether the `targets` loop keeps an existing matcher (success case):
dropped exactly when an enforced matcher of the same name is an equality
matcher. -/
def keepsTarget (lms : List Matcher) (target : Matcher) : Bool :=
  match findMatcher lms target.name with
  | some matcher => !(matcher.mtype = .equal)
  | none => true

/-- A conflict: an existing matcher that shares its name with an enforced
matcher but renders differently. -/
def hasConflict (lms : List Matcher) (targets : List Matcher) : Prop :=
  ∃ t ∈ targets, ∃ m, findMatcher lms t.name = some m ∧ m.sameString t = false

instance (lms targets : List Matcher) : Decidable (hasConflict lms targets) := by
  unfold hasConflict
  infer_instance

theorem enforceMatchersLoop_ok_of_no_conflict (lms : List Matcher)
    (errorOnReplace : Bool) (targets : List Matcher)
    (h : errorOnReplace = true → ¬ hasConflict lms targets) :
    enforceMatchersLoop lms errorOnReplace targets = .ok (targets.filter (keepsTarget lms)) := by
  induction targets with
  | nil => simp [enforceMatchersLoop]
  | cons t rest ih =>
    have hrest : errorOnReplace = true → ¬ hasConflict lms rest := by
      intro hb hc
      rcases hc with ⟨x, hx, m, hm, hs⟩
      exact h hb ⟨x, List.mem_cons_of_mem _ hx, m, hm, hs⟩
    cases hfind : findMatcher lms t.name with
    | none =>
      simp only [enforceMatchersLoop, hfind, ih hrest, List.filter_cons]
      have hkeep : keepsTarget lms t = true := by simp [keepsTarget, hfind]
      simp [hkeep]
    | some m =>
      have hnoerr : (errorOnReplace && !(m.sameString t)) = false := by
        cases hb : errorOnReplace with
        | false => simp
        | true =>
          simp only [Bool.true_and, Bool.not_eq_true']
          by_contra hne
          have : m.sameString t = false := by
            cases hs : m.sameString t
            · rfl
            · simp [hs] at hne
          exact h hb ⟨t, List.mem_cons_self t rest, m, hfind, this⟩
      by_cases heq : m.mtype = MatchType.equal
      · have hkeep : keepsTarget lms t = false := by simp [keepsTarget, hfind, heq]
        simp [enforceMatchersLoop, hfind, hnoerr, heq, ih hrest, List.filter_cons, hkeep]
      · have hkeep : keepsTarget lms t = true := by simp [keepsTarget, hfind, heq]
        simp [enforceMatchersLoop, hfind, hnoerr, heq, ih hrest, List.filter_cons, hkeep]

theorem enforceMatchersLoop_error_of_conflict (lms : List Matcher)
    (targets : List Matcher) (h : hasConflict lms targets) :
    enforceMatchersLoop lms true targets = .error .illegalLabelMatcher := by
  induction targets with
  | nil => rcases h with ⟨t, ht, _⟩; simp at ht
  | cons t rest ih =>
    cases hfind : findMatcher lms t.name with
    | none =>
      have hrest : hasConflict lms rest := by
        rcases h with ⟨x, hx, m, hm, hs⟩
        rcases List.mem_cons.mp hx with hxe | hxr
        · subst hxe; rw [hfind] at hm; cases hm
        · exact ⟨x, hxr, m, hm, hs⟩
      simp [enforceMatchersLoop, hfind, ih hrest]
    | some m =>
      by_cases hs : m.sameString t = false
      · simp [enforceMatchersLoop, hfind, hs]
      · have hst : m.sameString t = true := by
          cases hsm : m.sameString t
          · exact absurd hsm hs
          · rfl
        have hrest : hasConflict lms rest := by
          rcases h with ⟨x, hx, m', hm', hs'⟩
          rcases List.mem_cons.mp hx with hxe | hxr
          · subst hxe; rw [hfind] at hm'
            cases hm'
            rw [hst] at hs'; cases hs'
          · exact ⟨x, hxr, m', hm', hs'⟩
        by_cases heq : m.mtype = MatchType.equal
        · simp [enforceMatchersLoop, hfind, hst, heq, ih hrest]
        · simp [enforceMatchersLoop, hfind, hst, heq, ih hrest]

/-- C1: `EnforceMatchers` follows the spec's case analysis: with
`errorOnReplace` set, an existing matcher sharing its name with an enforced
matcher but differing in `(op,value)` fails with `IllegalLabelMatcher`;
otherwise an existing same-named matcher is dropped exactly when the enforced
matcher's operator is `=` and kept for any other enforced operator, and every
enforced matcher is appended to the result. -/
theorem c1_enforceMatchers_spec (lms targets : List Matcher) (errorOnReplace : Bool) :
    (errorOnReplace = true → hasConflict lms targets →
      EnforceMatchers lms errorOnReplace targets = .error .illegalLabelMatcher)
    ∧ ((errorOnReplace = true → ¬ hasConflict lms targets) →
      EnforceMatchers lms errorOnReplace targets =
        .ok (targets.filter (keepsTarget lms) ++ lms)) := by
  constructor
  · intro hb hc
    subst hb
    unfold EnforceMatchers
    rw [enforceMatchersLoop_error_of_conflict lms targets hc]
  · intro h
    unfold EnforceMatchers
    rw [enforceMatchersLoop_ok_of_no_conflict lms errorOnReplace targets h]

/-- Witness for C1: a concrete conflict errors, and a concrete run with a
non-equality enforced matcher keeps the same-named existing matcher while a
concrete equality enforced matcher drops it; the enforced matchers are
appended. -/
theorem c1_enforceMatchers_spec_witness :
    EnforceMatchers [⟨"ns", .equal, "a"⟩] true [⟨"ns", .equal, "b"⟩] =
      .error .illegalLabelMatcher
    ∧ EnforceMatchers [⟨"ns", .regexp, "a"⟩] false
        [⟨"ns", .equal, "b"⟩, ⟨"job", .equal, "x"⟩] =
      .ok [⟨"ns", .equal, "b"⟩, ⟨"job", .equal, "x"⟩, ⟨"ns", .regexp, "a"⟩]
    ∧ EnforceMatchers [⟨"ns", .equal, "a"⟩] false
        [⟨"ns", .equal, "b"⟩, ⟨"job", .equal, "x"⟩] =
      .ok [⟨"job", .equal, "x"⟩, ⟨"ns", .equal, "a"⟩] := by
  refine ⟨(c1_enforceMatchers_spec _ _ _).1 rfl (by decide), ?_, ?_⟩
  · have h := (c1_enforceMatchers_spec [⟨"ns", .regexp, "a"⟩]
      [⟨"ns", .equal, "b"⟩, ⟨"job", .equal, "x"⟩] false).2 (by decide)
    simpa using h
  · have h := (c1_enforceMatchers_spec [⟨"ns", .equal, "a"⟩]
      [⟨"ns", .equal, "b"⟩, ⟨"job", .equal, "x"⟩] false).2 (by decide)
    simpa using h

/-! ## The PromQL AST and the recursive walk (`EnforceNode` / `SetRecursive`)

The node kinds are the ones the Go type switch in `EnforceNode` names:
`EvalStmt`, `Expressions` (modelled as a nil/cons list node), `AggregateExpr`,
`BinaryExpr`, `Call`, `SubqueryExpr`, `ParenExpr`, `UnaryExpr`,
`NumberLiteral`, `StringLiteral`, `MatrixSelector` (which wraps an arbitrary
expression in its `VectorSelector` field) and `VectorSelector`.  `unknown`
stands for any other `parser.Node` (such as `StepInvariantExpr`), the case
that hits the `panic` in the switch's `default` branch.  Fields the walk
never visits (aggregation parameters, vector matching, offsets, the numeric
literal value) are carried opaquely or omitted. -/

inductive Expr where
  | evalStmt (body : Expr)
  | exprsNil
  | exprsCons (head tail : Expr)
  | aggregate (op : String) (grouping : List String) (body : Expr)
  | binary (op : String) (lhs rhs : Expr)
  | call (fn : String) (args : Expr)
  | subquery (body : Expr) (rng step : Nat)
  | paren (body : Expr)
  | unary (op : String) (body : Expr)
  | number (val : String)
  | stringLit (val : String)
  | matrix (inner : Expr) (rng : Nat)
  | vector (vname : String) (matchers : List Matcher)
  | unknown
deriving DecidableEq, Repr

/-- `PromQLEnforcer.EnforceNode`: walk the node recursively and apply
`EnforceMatchers` at every vector selector, including the one wrapped in a
matrix selector (the Go code type-asserts the `VectorSelector` field and
silently skips a non-`VectorSelector` value).  In-place mutation becomes a
rebuild of the node; the `panic` on an unhandled node kind becomes the
`unhandled` error. -/
def enforceNode (lms : List Matcher) (errorOnReplace : Bool) : Expr → Except EnfError Expr
  | .evalStmt body =>
    match enforceNode lms errorOnReplace body with
    | .error e => .error e
    | .ok body' => .ok (.evalStmt body')
  | .exprsNil => .ok .exprsNil
  | .exprsCons head tail =>
    match enforceNode lms errorOnReplace head with
    | .error e => .error e
    | .ok head' =>
      match enforceNode lms errorOnReplace tail with
      | .error e => .error e
      | .ok tail' => .ok (.exprsCons head' tail')
  | .aggregate op grouping body =>
    match enforceNode lms errorOnReplace body with
    | .error e => .error e
    | .ok body' => .ok (.aggregate op grouping body')
  | .binary op lhs rhs =>
    match enforceNode lms errorOnReplace lhs with
    | .error e => .error e
    | .ok lhs' =>
      match enforceNode lms errorOnReplace rhs with
      | .error e => .error e
      | .ok rhs' => .ok (.binary op lhs' rhs')
  | .call fn args =>
    match enforceNode lms errorOnReplace args with
    | .error e => .error e
    | .ok args' => .ok (.call fn args')
  | .subquery body rng step =>
    match enforceNode lms errorOnReplace body with
    | .error e => .error e
    | .ok body' => .ok (.subquery body' rng step)
  | .paren body =>
    match enforceNode lms errorOnReplace body with
    | .error e => .error e
    | .ok body' => .ok (.paren body')
  | .unary op body =>
    match enforceNode lms errorOnReplace body with
    | .error e => .error e
    | .ok body' => .ok (.unary op body')
  | .number val => .ok (.number val)
  | .stringLit val => .ok (.stringLit val)
  | .matrix inner rng =>
    match inner with
    | .vector vname matchers =>
      match EnforceMatchers lms errorOnReplace matchers with
      | .error e => .error e
      | .ok matchers' => .ok (.matrix (.vector vname matchers') rng)
    | _ => .ok (.matrix inner rng)
  | .vector vname matchers =>
    match EnforceMatchers lms errorOnReplace matchers with
    | .error e => .error e
    | .ok matchers' => .ok (.vector vname matchers')
  | .unknown => .error .unhandled

/-- The node kinds `parser.ParseExpr` can produce: everything the walk
handles, i.e. no `unknown` node anywhere. -/
def wellFormed : Expr → Bool
  | .evalStmt body => wellFormed body
  | .exprsNil => true
  | .exprsCons head tail => wellFormed head && wellFormed tail
  | .aggregate _ _ body => wellFormed body
  | .binary _ lhs rhs => wellFormed lhs && wellFormed rhs
  | .call _ args => wellFormed args
  | .subquery body _ _ => wellFormed body
  | .paren body => wellFormed body
  | .unary _ body => wellFormed body
  | .number _ => true
  | .stringLit _ => true
  | .matrix inner _ => wellFormed inner
  | .vector _ _ => true
  | .unknown => false

/-- `PromQLEnforcer.Enforce`, applied to the outcome of `parser.ParseExpr`
(`none` models a parse failure): a parse failure maps to `ErrQueryParse`,
`ErrIllegalLabelMatcher` passes through, any other enforcement failure is
wrapped as `ErrEnforceLabel`; on success the rewritten expression is
re-serialized (the embedding returns the rewritten tree). -/
def Enforce (lms : List Matcher) (errorOnReplace : Bool)
    (parsed : Option Expr) : Except EnfError Expr :=
  match parsed with
  | none => .error .queryParse
  | some expr =>
    match enforceNode lms errorOnReplace expr with
    | .ok expr' => .ok expr'
    | .error .illegalLabelMatcher => .error .illegalLabelMatcher
    | .error .unhandled => .error .unhandled
    | .error _ => .error .enforceLabel

theorem enforceMatchersLoop_cases (lms : List Matcher) (errorOnReplace : Bool)
    (ts : List Matcher) :
    (∃ rs, enforceMatchersLoop lms errorOnReplace ts = .ok rs)
    ∨ enforceMatchersLoop lms errorOnReplace ts = .error .illegalLabelMatcher := by
  induction ts with
  | nil => exact .inl ⟨[], rfl⟩
  | cons t rest ih =>
    cases hfind : findMatcher lms t.name with
    | none =>
      rcases ih with ⟨rs, hrec⟩ | hrec
      · exact .inl ⟨t :: rs, by simp [enforceMatchersLoop, hfind, hrec]⟩
      · exact .inr (by simp [enforceMatchersLoop, hfind, hrec])
    | some m =>
      by_cases herr : (errorOnReplace && !(m.sameString t)) = true
      · exact .inr (by simp [enforceMatchersLoop, hfind, herr])
      · have herr' : (errorOnReplace && !(m.sameString t)) = false := by
          revert herr
          cases errorOnReplace && !(m.sameString t) <;> simp
        by_cases heq : m.mtype = MatchType.equal
        · rcases ih with ⟨rs, hrec⟩ | hrec
          · exact .inl ⟨rs, by simp [enforceMatchersLoop, hfind, herr', heq, hrec]⟩
          · exact .inr (by simp [enforceMatchersLoop, hfind, herr', heq, hrec])
        · rcases ih with ⟨rs, hrec⟩ | hrec
          · exact .inl ⟨t :: rs, by simp [enforceMatchersLoop, hfind, herr', heq, hrec]⟩
          · exact .inr (by simp [enforceMatchersLoop, hfind, herr', heq, hrec])

theorem EnforceMatchers_error_eq (lms : List Matcher) (errorOnReplace : Bool)
    (ts : List Matcher) (e : EnfError)
    (h : EnforceMatchers lms errorOnReplace ts = .error e) :
    e = .illegalLabelMatcher := by
  rcases enforceMatchersLoop_cases lms errorOnReplace ts with ⟨rs, hrec⟩ | hrec <;>
    unfold EnforceMatchers at h <;> rw [hrec] at h
  · cases h
  · injection h with h'
    exact h'.symm

/-- Outcome of the query endpoint handler: an error envelope with an HTTP
status, or a request forwarded upstream with the rewritten query. -/
inductive QueryResponse where
  | apiError (status : Nat) (errType : EnfError)
  | forward (q : Expr)
deriving DecidableEq, Repr

/-- Modelled from the spec: the query endpoint handler of the current
`routes.go` is not among the sources (only its tests and the
`PromQLEnforcer` it calls are).  Per the spec's failure modes, `QueryParse`,
`IllegalLabelMatcher` and `EnforceLabel` all map to a 400 error envelope and
the request is not forwarded; on success the rewritten query is forwarded. -/
def queryHandler (lms : List Matcher) (errorOnReplace : Bool)
    (parsed : Option Expr) : QueryResponse :=
  match Enforce lms errorOnReplace parsed with
  | .error e => .apiError 400 e
  | .ok expr' => .forward expr'

/-- C6: a request to the query endpoints whose query parameter is not a
parseable PromQL expression is answered with HTTP 400 carrying a
`QueryParse` error and is not forwarded upstream. -/
theorem c6_query_parse_error_400 (lms : List Matcher) (errorOnReplace : Bool)
    (parsed : Option Expr) (h : parsed = none) :
    queryHandler lms errorOnReplace parsed = .apiError 400 .queryParse
    ∧ ∀ q, queryHandler lms errorOnReplace parsed ≠ .forward q := by
  subst h
  exact ⟨rfl, fun q => by simp [queryHandler, Enforce]⟩

/-- Witness for C6 at a concrete unparseable input. -/
theorem c6_query_parse_error_400_witness :
    queryHandler [⟨"ns", .equal, "a"⟩] false none = .apiError 400 .queryParse := by
  exact (c6_query_parse_error_400 [⟨"ns", .equal, "a"⟩] false none rfl).1

/-- C10: on every expression built only from the node kinds the parser
produces, the recursive walk never reaches the `default` branch that panics:
`enforceNode` never returns the `unhandled` error. -/
theorem c10_enforceNode_total (lms : List Matcher) (errorOnReplace : Bool)
    (e : Expr) (h : wellFormed e = true) :
    enforceNode lms errorOnReplace e ≠ .error .unhandled := by
  induction e with
  | evalStmt body ih =>
    simp only [wellFormed] at h
    cases henf : enforceNode lms errorOnReplace body with
    | error e' =>
      simp only [enforceNode, henf]
      intro hc
      injection hc with hce
      exact (ih h) (by rw [henf, hce])
    | ok body' => simp [enforceNode, henf]
  | exprsNil => simp [enforceNode]
  | exprsCons head tail ih1 ih2 =>
    simp only [wellFormed, Bool.and_eq_true] at h
    cases henf1 : enforceNode lms errorOnReplace head with
    | error e' =>
      simp only [enforceNode, henf1]
      intro hc
      injection hc with hce
      exact (ih1 h.1) (by rw [henf1, hce])
    | ok head' =>
      cases henf2 : enforceNode lms errorOnReplace tail with
      | error e' =>
        simp only [enforceNode, henf1, henf2]
        intro hc
        injection hc with hce
        exact (ih2 h.2) (by rw [henf2, hce])
      | ok tail' => simp [enforceNode, henf1, henf2]
  | aggregate op grouping body ih =>
    simp only [wellFormed] at h
    cases henf : enforceNode lms errorOnReplace body with
    | error e' =>
      simp only [enforceNode, henf]
      intro hc
      injection hc with hce
      exact (ih h) (by rw [henf, hce])
    | ok body' => simp [enforceNode, henf]
  | binary op lhs rhs ih1 ih2 =>
    simp only [wellFormed, Bool.and_eq_true] at h
    cases henf1 : enforceNode lms errorOnReplace lhs with
    | error e' =>
      simp only [enforceNode, henf1]
      intro hc
      injection hc with hce
      exact (ih1 h.1) (by rw [henf1, hce])
    | ok lhs' =>
      cases henf2 : enforceNode lms errorOnReplace rhs with
      | error e' =>
        simp only [enforceNode, henf1, henf2]
        intro hc
        injection hc with hce
        exact (ih2 h.2) (by rw [henf2, hce])
      | ok rhs' => simp [enforceNode, henf1, henf2]
  | call fn args ih =>
    simp only [wellFormed] at h
    cases henf : enforceNode lms errorOnReplace args with
    | error e' =>
      simp only [enforceNode, henf]
      intro hc
      injection hc with hce
      exact (ih h) (by rw [henf, hce])
    | ok args' => simp [enforceNode, henf]
  | subquery body rng step ih =>
    simp only [wellFormed] at h
    cases henf : enforceNode lms errorOnReplace body with
    | error e' =>
      simp only [enforceNode, henf]
      intro hc
      injection hc with hce
      exact (ih h) (by rw [henf, hce])
    | ok body' => simp [enforceNode, henf]
  | paren body ih =>
    simp only [wellFormed] at h
    cases henf : enforceNode lms errorOnReplace body with
    | error e' =>
      simp only [enforceNode, henf]
      intro hc
      injection hc with hce
      exact (ih h) (by rw [henf, hce])
    | ok body' => simp [enforceNode, henf]
  | unary op body ih =>
    simp only [wellFormed] at h
    cases henf : enforceNode lms errorOnReplace body with
    | error e' =>
      simp only [enforceNode, henf]
      intro hc
      injection hc with hce
      exact (ih h) (by rw [henf, hce])
    | ok body' => simp [enforceNode, henf]
  | number val => simp [enforceNode]
  | stringLit val => simp [enforceNode]
  | matrix inner rng ih =>
    cases inner with
    | vector vname matchers =>
      cases hEM : EnforceMatchers lms errorOnReplace matchers with
      | error e' =>
        simp only [enforceNode, hEM]
        intro hc
        injection hc with hce
        have := EnforceMatchers_error_eq lms errorOnReplace matchers e' hEM
        rw [this] at hce
        cases hce
      | ok matchers' => simp [enforceNode, hEM]
    | evalStmt body => simp [enforceNode]
    | exprsNil => simp [enforceNode]
    | exprsCons head tail => simp [enforceNode]
    | aggregate op grouping body => simp [enforceNode]
    | binary op lhs rhs => simp [enforceNode]
    | call fn args => simp [enforceNode]
    | subquery body rng' step => simp [enforceNode]
    | paren body => simp [enforceNode]
    | unary op body => simp [enforceNode]
    | number val => simp [enforceNode]
    | stringLit val => simp [enforceNode]
    | matrix inner' rng' => simp [enforceNode]
    | unknown => simp [enforceNode]
  | vector vname matchers =>
    cases hEM : EnforceMatchers lms errorOnReplace matchers with
    | error e' =>
      simp only [enforceNode, hEM]
      intro hc
      injection hc with hce
      have := EnforceMatchers_error_eq lms errorOnReplace matchers e' hEM
      rw [this] at hce
      cases hce
    | ok matchers' => simp [enforceNode, hEM]
  | unknown => simp [wellFormed] at h

/-- Witness for C10 at a concrete parsed expression
(`rate(up{job="x"}[5m]) + on (ns) sum by (ns) (metric)`). -/
theorem c10_enforceNode_total_witness :
    wellFormed (.binary "+"
      (.call "rate" (.exprsCons (.matrix (.vector "up" [⟨"job", .equal, "x"⟩]) 300) .exprsNil))
      (.aggregate "sum" ["ns"] (.vector "metric" []))) = true
    ∧ enforceNode [⟨"ns", .equal, "a"⟩] false (.binary "+"
      (.call "rate" (.exprsCons (.matrix (.vector "up" [⟨"job", .equal, "x"⟩]) 300) .exprsNil))
      (.aggregate "sum" ["ns"] (.vector "metric" []))) ≠ .error .unhandled :=
  ⟨by decide, c10_enforceNode_total [⟨"ns", .equal, "a"⟩] false _ (by decide)⟩

/-! ## Idempotence of enforcement -/

theorem sameString_self (m : Matcher) : m.sameString m = true := by
  simp [Matcher.sameString]

theorem findMatcher_mem (lms : List Matcher) (n : String) (m : Matcher)
    (h : findMatcher lms n = some m) : m ∈ lms :=
  List.mem_of_find?_eq_some h

theorem findMatcher_self (lms : List Matcher)
    (hnd : (lms.map Matcher.name).Nodup) (m : Matcher) (hm : m ∈ lms) :
    findMatcher lms m.name = some m := by
  induction lms with
  | nil => simp at hm
  | cons x xs ih =>
    simp only [List.map_cons, List.nodup_cons] at hnd
    rcases List.mem_cons.mp hm with hmx | hmxs
    · subst hmx
      simp [findMatcher, List.find?]
    · by_cases hname : x.name == m.name
      · exfalso
        apply hnd.1
        rw [eq_of_beq hname]
        exact List.mem_map_of_mem Matcher.name hmxs
      · have : findMatcher xs m.name = some m := ih hnd.2 hmxs
        simpa [findMatcher, List.find?, hname] using this

theorem enforceMatchersLoop_kept_not_enforced (lms : List Matcher)
    (errorOnReplace : Bool)
    (hall : ∀ m ∈ lms, m.mtype = MatchType.equal) :
    ∀ ts rs, enforceMatchersLoop lms errorOnReplace ts = .ok rs →
      ∀ r ∈ rs, findMatcher lms r.name = none := by
  intro ts
  induction ts with
  | nil =>
    intro rs h r hr
    simp only [enforceMatchersLoop] at h
    injection h with h'
    subst h'
    simp at hr
  | cons t rest ih =>
    intro rs h r hr
    cases hfind : findMatcher lms t.name with
    | none =>
      cases hrec : enforceMatchersLoop lms errorOnReplace rest with
      | error e' => simp [enforceMatchersLoop, hfind, hrec] at h
      | ok rs' =>
        simp only [enforceMatchersLoop, hfind, hrec] at h
        injection h with h'
        subst h'
        rcases List.mem_cons.mp hr with hre | hrr
        · subst hre; exact hfind
        · exact ih rs' hrec r hrr
    | some m =>
      have heq : m.mtype = MatchType.equal :=
        hall m (findMatcher_mem lms t.name m hfind)
      by_cases herr : (errorOnReplace && !(m.sameString t)) = true
      · simp [enforceMatchersLoop, hfind, herr] at h
      · have herr' : (errorOnReplace && !(m.sameString t)) = false := by
          revert herr
          cases errorOnReplace && !(m.sameString t) <;> simp
        simp only [enforceMatchersLoop, hfind, herr', heq, Bool.false_eq_true,
          if_false, if_true] at h
        exact ih rs h r hr

theorem enforceMatchersLoop_append_ok (lms : List Matcher) (errorOnReplace : Bool)
    (hall : ∀ m ∈ lms, m.mtype = MatchType.equal)
    (ks es : List Matcher)
    (hks : ∀ k ∈ ks, findMatcher lms k.name = none)
    (hes : ∀ x ∈ es, findMatcher lms x.name = some x) :
    enforceMatchersLoop lms errorOnReplace (ks ++ es) = .ok ks := by
  induction ks with
  | nil =>
    simp only [List.nil_append]
    induction es with
    | nil => simp [enforceMatchersLoop]
    | cons x xs ihx =>
      have hfind : findMatcher lms x.name = some x := hes x (List.mem_cons_self x xs)
      have heq : x.mtype = MatchType.equal :=
        hall x (findMatcher_mem lms x.name x hfind)
      have hrest : enforceMatchersLoop lms errorOnReplace xs = .ok [] :=
        ihx (fun y hy => hes y (List.mem_cons_of_mem x hy))
      simp [enforceMatchersLoop, hfind, sameString_self, heq, hrest]
  | cons k ks' ih =>
    have hfind : findMatcher lms k.name = none := hks k (List.mem_cons_self k ks')
    have hrest : enforceMatchersLoop lms errorOnReplace (ks' ++ es) = .ok ks' :=
      ih (fun y hy => hks y (List.mem_cons_of_mem k hy))
    simp [enforceMatchersLoop, hfind, hrest]

/-- Re-applying `EnforceMatchers` to its own successful output changes
nothing, provided every enforced matcher is an equality matcher. -/
theorem EnforceMatchers_idem (lms : List Matcher) (errorOnReplace : Bool)
    (hall : ∀ m ∈ lms, m.mtype = MatchType.equal)
    (hnd : (lms.map Matcher.name).Nodup)
    (ts ms : List Matcher)
    (h : EnforceMatchers lms errorOnReplace ts = .ok ms) :
    EnforceMatchers lms errorOnReplace ms = .ok ms := by
  unfold EnforceMatchers at h
  cases hrec : enforceMatchersLoop lms errorOnReplace ts with
  | error e' => rw [hrec] at h; cases h
  | ok rs =>
    rw [hrec] at h
    injection h with h'
    subst h'
    have hloop : enforceMatchersLoop lms errorOnReplace (rs ++ lms) = .ok rs :=
      enforceMatchersLoop_append_ok lms errorOnReplace hall rs lms
        (enforceMatchersLoop_kept_not_enforced lms errorOnReplace hall ts rs hrec)
        (findMatcher_self lms hnd)
    unfold EnforceMatchers
    rw [hloop]

/-- C8 counterexample: enforcement is not idempotent as claimed.  With the
enforced matcher set `{ns=~"a"}` (the shape the proxy uses for a multi-value
or regex tenant) on the accepted query `up`, one application yields
`up{ns=~"a"}` but a second application duplicates the enforced matcher,
yielding `up{ns=~"a",ns=~"a"}` — a different expression text, not a
whitespace variation. -/
theorem c8_counterexample :
    enforceNode [⟨"ns", .regexp, "a"⟩] false (.vector "up" []) =
      .ok (.vector "up" [⟨"ns", .regexp, "a"⟩])
    ∧ enforceNode [⟨"ns", .regexp, "a"⟩] false
        (.vector "up" [⟨"ns", .regexp, "a"⟩]) =
      .ok (.vector "up" [⟨"ns", .regexp, "a"⟩, ⟨"ns", .regexp, "a"⟩])
    ∧ matchersToString [⟨"ns", .regexp, "a"⟩] ≠
      matchersToString [⟨"ns", .regexp, "a"⟩, ⟨"ns", .regexp, "a"⟩] :=
  ⟨rfl, rfl, by decide⟩

/-- C8 (amended): enforcement is idempotent whenever every enforced matcher
is an equality matcher (the single-tenant, non-regex configuration): if
`enforceNode` accepts `e` and rewrites it to `e'`, then applying it to `e'`
returns `e'` unchanged. -/
theorem c8_enforce_idempotent (lms : List Matcher) (errorOnReplace : Bool)
    (hall : ∀ m ∈ lms, m.mtype = MatchType.equal)
    (hnd : (lms.map Matcher.name).Nodup)
    (e e' : Expr) (h : enforceNode lms errorOnReplace e = .ok e') :
    enforceNode lms errorOnReplace e' = .ok e' := by
  induction e generalizing e' with
  | evalStmt body ih =>
    cases henf : enforceNode lms errorOnReplace body with
    | error er => simp [enforceNode, henf] at h
    | ok body' =>
      simp only [enforceNode, henf] at h
      injection h with h'
      subst h'
      simp [enforceNode, ih body' henf]
  | exprsNil =>
    simp only [enforceNode] at h
    injection h with h'
    subst h'
    simp [enforceNode]
  | exprsCons head tail ih1 ih2 =>
    cases henf1 : enforceNode lms errorOnReplace head with
    | error er => simp [enforceNode, henf1] at h
    | ok head' =>
      cases henf2 : enforceNode lms errorOnReplace tail with
      | error er => simp [enforceNode, henf1, henf2] at h
      | ok tail' =>
        simp only [enforceNode, henf1, henf2] at h
        injection h with h'
        subst h'
        simp [enforceNode, ih1 head' henf1, ih2 tail' henf2]
  | aggregate op grouping body ih =>
    cases henf : enforceNode lms errorOnReplace body with
    | error er => simp [enforceNode, henf] at h
    | ok body' =>
      simp only [enforceNode, henf] at h
      injection h with h'
      subst h'
      simp [enforceNode, ih body' henf]
  | binary op lhs rhs ih1 ih2 =>
    cases henf1 : enforceNode lms errorOnReplace lhs with
    | error er => simp [enforceNode, henf1] at h
    | ok lhs' =>
      cases henf2 : enforceNode lms errorOnReplace rhs with
      | error er => simp [enforceNode, henf1, henf2] at h
      | ok rhs' =>
        simp only [enforceNode, henf1, henf2] at h
        injection h with h'
        subst h'
        simp [enforceNode, ih1 lhs' henf1, ih2 rhs' henf2]
  | call fn args ih =>
    cases henf : enforceNode lms errorOnReplace args with
    | error er => simp [enforceNode, henf] at h
    | ok args' =>
      simp only [enforceNode, henf] at h
      injection h with h'
      subst h'
      simp [enforceNode, ih args' henf]
  | subquery body rng step ih =>
    cases henf : enforceNode lms errorOnReplace body with
    | error er => simp [enforceNode, henf] at h
    | ok body' =>
      simp only [enforceNode, henf] at h
      injection h with h'
      subst h'
      simp [enforceNode, ih body' henf]
  | paren body ih =>
    cases henf : enforceNode lms errorOnReplace body with
    | error er => simp [enforceNode, henf] at h
    | ok body' =>
      simp only [enforceNode, henf] at h
      injection h with h'
      subst h'
      simp [enforceNode, ih body' henf]
  | unary op body ih =>
    cases henf : enforceNode lms errorOnReplace body with
    | error er => simp [enforceNode, henf] at h
    | ok body' =>
      simp only [enforceNode, henf] at h
      injection h with h'
      subst h'
      simp [enforceNode, ih body' henf]
  | number val =>
    simp only [enforceNode] at h
    injection h with h'
    subst h'
    simp [enforceNode]
  | stringLit val =>
    simp only [enforceNode] at h
    injection h with h'
    subst h'
    simp [enforceNode]
  | matrix inner rng ih =>
    cases inner with
    | vector vname matchers =>
      cases hEM : EnforceMatchers lms errorOnReplace matchers with
      | error er => simp [enforceNode, hEM] at h
      | ok matchers' =>
        simp only [enforceNode, hEM] at h
        injection h with h'
        subst h'
        simp [enforceNode,
          EnforceMatchers_idem lms errorOnReplace hall hnd matchers matchers' hEM]
    | evalStmt body =>
      simp only [enforceNode] at h
      injection h with h'
      subst h'
      simp [enforceNode]
    | exprsNil =>
      simp only [enforceNode] at h
      injection h with h'
      subst h'
      simp [enforceNode]
    | exprsCons head tail =>
      simp only [enforceNode] at h
      injection h with h'
      subst h'
      simp [enforceNode]
    | aggregate op grouping body =>
      simp only [enforceNode] at h
      injection h with h'
      subst h'
      simp [enforceNode]
    | binary op lhs rhs =>
      simp only [enforceNode] at h
      injection h with h'
      subst h'
      simp [enforceNode]
    | call fn args =>
      simp only [enforceNode] at h
      injection h with h'
      subst h'
      simp [enforceNode]
    | subquery body rng' step =>
      simp only [enforceNode] at h
      injection h with h'
      subst h'
      simp [enforceNode]
    | paren body =>
      simp only [enforceNode] at h
      injection h with h'
      subst h'
      simp [enforceNode]
    | unary op body =>
      simp only [enforceNode] at h
      injection h with h'
      subst h'
      simp [enforceNode]
    | number val =>
      simp only [enforceNode] at h
      injection h with h'
      subst h'
      simp [enforceNode]
    | stringLit val =>
      simp only [enforceNode] at h
      injection h with h'
      subst h'
      simp [enforceNode]
    | matrix inner' rng' =>
      simp only [enforceNode] at h
      injection h with h'
      subst h'
      simp [enforceNode]
    | unknown =>
      simp only [enforceNode] at h
      injection h with h'
      subst h'
      simp [enforceNode]
  | vector vname matchers =>
    cases hEM : EnforceMatchers lms errorOnReplace matchers with
    | error er => simp [enforceNode, hEM] at h
    | ok matchers' =>
      simp only [enforceNode, hEM] at h
      injection h with h'
      subst h'
      simp [enforceNode,
        EnforceMatchers_idem lms errorOnReplace hall hnd matchers matchers' hEM]
  | unknown => simp [enforceNode] at h

/-- Witness for C8 (amended) at a concrete query with a single-value `=`
enforced matcher. -/
theorem c8_enforce_idempotent_witness :
    enforceNode [⟨"ns", .equal, "a"⟩] false
      (.paren (.vector "up" [⟨"ns", .equal, "b"⟩, ⟨"job", .equal, "x"⟩])) =
      .ok (.paren (.vector "up" [⟨"job", .equal, "x"⟩, ⟨"ns", .equal, "a"⟩]))
    ∧ enforceNode [⟨"ns", .equal, "a"⟩] false
      (.paren (.vector "up" [⟨"job", .equal, "x"⟩, ⟨"ns", .equal, "a"⟩])) =
      .ok (.paren (.vector "up" [⟨"job", .equal, "x"⟩, ⟨"ns", .equal, "a"⟩])) :=
  ⟨rfl,
   c8_enforce_idempotent [⟨"ns", .equal, "a"⟩] false (by decide) (by decide)
     (.paren (.vector "up" [⟨"ns", .equal, "b"⟩, ⟨"job", .equal, "x"⟩]))
     (.paren (.vector "up" [⟨"job", .equal, "x"⟩, ⟨"ns", .equal, "a"⟩])) rfl⟩

/-! ## Request dispatch (`routes.ServeHTTP`, `routes.matcher`) -/

/-- `url.Values.Get`: the first value recorded for the key, `""` if the key
is absent.  A query string is modelled as the ordered list of its key/value
pairs. -/
def queryGet (q : List (String × String)) (key : String) : String :=
  match q.find? (fun kv => kv.1 == key) with
  | some kv => kv.2
  | none => ""

/-- `url.Values.Del`: remove every value recorded for the key. -/
def queryDel (q : List (String × String)) (key : String) : List (String × String) :=
  q.filter (fun kv => !(kv.1 == key))

/-- Outcome of `routes.ServeHTTP`: a 400 error, or the request handed to the
mux (and from there to the upstream proxy) with the rewritten query string. -/
inductive ServeOutcome where
  | badRequest (msg : String)
  | forwarded (query : List (String × String))
deriving DecidableEq, Repr

/-- `routes.ServeHTTP`: the tenant value is read from the proxy's own query
parameter, named after the enforced label; missing or empty → 400; otherwise
the parameter is deleted from the query string and the request continues
with the remaining query. -/
def serveHTTP (label : String) (query : List (String × String)) : ServeOutcome :=
  let lvalue := queryGet query label
  if lvalue = "" then
    .badRequest ("Bad request. The " ++ label ++ " query parameter must be provided.")
  else
    .forwarded (queryDel query label)

/-- C2: when the tenant value comes from the request's query parameter, the
query string forwarded upstream never contains the proxy's own tenant
parameter. -/
theorem c2_no_label_param_forwarded (label : String)
    (query q' : List (String × String))
    (h : serveHTTP label query = .forwarded q') :
    ∀ kv ∈ q', kv.1 ≠ label := by
  intro kv hkv
  unfold serveHTTP at h
  by_cases hval : queryGet query label = ""
  · simp [hval] at h
  · simp only [hval, if_false] at h
    injection h with h'
    subst h'
    have := List.of_mem_filter hkv
    simpa using this

/-- Witness for C2: a concrete request whose `namespace` parameter is
extracted and stripped before forwarding. -/
theorem c2_no_label_param_forwarded_witness :
    ("query", "up").1 ≠ "namespace" :=
  c2_no_label_param_forwarded "namespace"
    [("namespace", "default"), ("query", "up")] [("query", "up")] rfl
    ("query", "up") (by decide)

/-- `routes.matcher`, at the level of parsed selectors: with no `match[]`
parameter supplied, a single selector holding just the enforced matcher is
synthesized; otherwise the enforced matcher is appended to every supplied
selector. -/
def matcherHandler (enforced : Matcher)
    (selectors : List (List Matcher)) : List (List Matcher) :=
  if selectors.isEmpty then [[enforced]]
  else selectors.map (fun ms => ms ++ [enforced])

/-- C5: the matcher-list rewriter synthesizes `{enforced}` when no `match[]`
is given, and otherwise appends the enforced matcher to every supplied
selector, dropping none and leaving duplicate label names intact. -/
theorem c5_matcher_rewrite (enforced : Matcher) (selectors : List (List Matcher)) :
    matcherHandler enforced [] = [[enforced]]
    ∧ (selectors ≠ [] →
        ∀ i : Nat, (matcherHandler enforced selectors)[i]? =
          (selectors[i]?).map (fun ms => ms ++ [enforced])) := by
  constructor
  · rfl
  · intro hne i
    have hemp : selectors.isEmpty = false := by
      cases selectors
      · exact absurd rfl hne
      · rfl
    simp [matcherHandler, hemp]

/-- Witness for C5: the selector `{job="prometheus",namespace="default"}`
(a duplicate of the enforced label name) is forwarded with the enforced
matcher appended, untouched otherwise. -/
theorem c5_matcher_rewrite_witness :
    (matcherHandler ⟨"namespace", .equal, "default"⟩
      [[⟨"job", .equal, "prometheus"⟩, ⟨"namespace", .equal, "default"⟩]])[0]? =
      some [⟨"job", .equal, "prometheus"⟩, ⟨"namespace", .equal, "default"⟩,
        ⟨"namespace", .equal, "default"⟩] := by
  have h := (c5_matcher_rewrite ⟨"namespace", .equal, "default"⟩
    [[⟨"job", .equal, "prometheus"⟩, ⟨"namespace", .equal, "default"⟩]]).2
    (by decide) 0
  simpa using h

/-! ## Alertmanager filter rewriting (`routes.enforceFilterParameter`) -/

/-- Modelled from the spec: `joinMultipleLabelValues` lives in the current
`routes.go`, which is not among the sources; per the spec it
pipe-concatenates the tenant values with each value regex-escaped (notably
`|` → `\|`). -/
def regexQuoteChar (c : Char) : String :=
  if ("\\.+*?()|[]\x7b\x7d^$".toList.contains c) then "\\" ++ c.toString
  else c.toString

/-- Modelled from the spec: regex-escape each tenant value and join the
escaped values with `|`. -/
def joinMultipleLabelValues (values : List String) : String :=
  String.intercalate "|" (values.map (fun v => String.join (v.toList.map regexQuoteChar)))

/-- The loop over the client's `filter` parameters in
`routes.enforceFilterParameter` (at the level of parsed matchers): a filter
on the enforced label is skipped, anything else is kept. -/
def filterKeepLoop (label : String) : List Matcher → List Matcher
  | [] => []
  | m :: rest =>
    if m.name = label then filterKeepLoop label rest
    else m :: filterKeepLoop label rest

/-- `routes.enforceFilterParameter`: the rewritten `filter` list starts with
the proxy's matcher — always a `=~` matcher on the enforced label with the
joined tenant values — followed by the kept client filters. -/
def enforceFilterParameter (label : String) (lvalues : List String)
    (filters : List Matcher) : List Matcher :=
  ⟨label, .regexp, joinMultipleLabelValues lvalues⟩ :: filterKeepLoop label filters

/-- The rewrite as the claim words it: the client's filters with every filter
on the enforced label removed, plus one appended matcher on the enforced
label whose operator is `=~` when more than one tenant value is given or
regex mode is enabled, and `=` otherwise. -/
def enforceFilterParameterClaimed (label : String) (lvalues : List String)
    (regexMatch : Bool) (filters : List Matcher) : List Matcher :=
  filters.filter (fun m => !(m.name == label)) ++
    [⟨label,
      (if lvalues.length > 1 || regexMatch then MatchType.regexp else MatchType.equal),
      joinMultipleLabelValues lvalues⟩]

/-- C7 counterexample: with a single tenant value and regex mode off, the
code emits `namespace=~"default"` *prepended* to the kept filters, while the
claim predicts `namespace="default"` appended. -/
theorem c7_counterexample :
    enforceFilterParameter "namespace" ["default"]
      [⟨"job", .equal, "prometheus"⟩] ≠
    enforceFilterParameterClaimed "namespace" ["default"] false
      [⟨"job", .equal, "prometheus"⟩] := by
  decide

/-- C7 (amended): the forwarded `filter` parameters are exactly one matcher
on the enforced label with operator `=~` and the joined tenant value(s),
prepended to the client's filters with every filter on the enforced label
removed. -/
theorem c7_filter_rewrite (label : String) (lvalues : List String)
    (filters : List Matcher) :
    enforceFilterParameter label lvalues filters =
      ⟨label, .regexp, joinMultipleLabelValues lvalues⟩ ::
        filters.filter (fun m => !(m.name == label)) := by
  unfold enforceFilterParameter
  congr 1
  induction filters with
  | nil => rfl
  | cons m rest ih =>
    by_cases hm : m.name = label
    · simp [filterKeepLoop, hm, ih]
    · simp [filterKeepLoop, hm, ih]

/-! ## The silence guard (`silences.go`) -/

/-- An Alertmanager v2 matcher (`models.Matcher`, pointer fields made
plain). -/
structure AmMatcher where
  name : String
  value : String
  isRegex : Bool
deriving DecidableEq, Repr

/-- `models.GettableSilence`, restricted to the fields the guard reads. -/
structure GettableSilence where
  id : String
  matchers : List AmMatcher
deriving DecidableEq, Repr

/-- `models.PostableSilence`, restricted to the fields the guard touches. -/
structure PostableSilence where
  id : String
  matchers : List AmMatcher
deriving DecidableEq, Repr

/-- `hasMatcherForLabel`: the first matcher carrying the enforced label name
decides — it must be a regex matcher whose value is the joined tenant
values. -/
def hasMatcherForLabel (ms : List AmMatcher) (nm : String)
    (values : List String) : Bool :=
  match ms with
  | [] => false
  | m :: rest =>
    if m.name == nm then m.isRegex && (m.value == joinMultipleLabelValues values)
    else hasMatcherForLabel rest nm values

/-- Outcome of a silence write: an error envelope, or the POST forwarded
upstream with the rewritten silence body. -/
inductive PostSilenceOutcome where
  | apiError (status : Nat) (msg : String)
  | forwarded (sil : PostableSilence)
deriving DecidableEq, Repr

/-- The tail of `routes.postSilence`: prepend the enforced matcher
`{name: L, value: join(V), isRegex: true}` to the submitted matchers and
reject a resulting list shorter than two matchers. -/
def postSilenceInject (label matcherValue : String)
    (sil : PostableSilence) : PostSilenceOutcome :=
  let modified : List AmMatcher := ⟨label, matcherValue, true⟩ :: sil.matchers
  if modified.length < 2 then
    .apiError 400 "need at least one matcher, got none"
  else
    .forwarded { sil with matchers := modified }

/-- `routes.postSilence`: decode the submitted silence (given here already
decoded); when it carries an id, fetch the existing silence by id
(`getSilenceByID` abstracts the upstream call) and refuse with 403 when the
existing silence lacks the enforced-label matcher; then inject the matcher
and forward. -/
def postSilence (label : String) (lvalues : List String)
    (getSilenceByID : String → Except String GettableSilence)
    (sil : PostableSilence) : PostSilenceOutcome :=
  let matcherValue := joinMultipleLabelValues lvalues
  if sil.id ≠ "" then
    match getSilenceByID sil.id with
    | .error e => .apiError 502 ("proxy error: can't get silence: " ++ e)
    | .ok existing =>
      if !(hasMatcherForLabel existing.matchers label lvalues) then
        .apiError 403 "forbidden"
      else
        postSilenceInject label matcherValue sil
  else
    postSilenceInject label matcherValue sil

/-- C3: a POST of a silence carrying a non-empty id, whose existing upstream
silence has no enforced-label matcher equal to the joined tenant value, is
answered 403 Forbidden and is not forwarded upstream. -/
theorem c3_post_silence_forbidden (label : String) (lvalues : List String)
    (getSilenceByID : String → Except String GettableSilence)
    (sil : PostableSilence) (existing : GettableSilence)
    (hid : sil.id ≠ "")
    (hget : getSilenceByID sil.id = .ok existing)
    (hmiss : hasMatcherForLabel existing.matchers label lvalues = false) :
    postSilence label lvalues getSilenceByID sil = .apiError 403 "forbidden"
    ∧ ∀ s, postSilence label lvalues getSilenceByID sil ≠ .forwarded s := by
  have h : postSilence label lvalues getSilenceByID sil = .apiError 403 "forbidden" := by
    unfold postSilence
    rw [if_pos hid, hget]
    simp [hmiss]
  exact ⟨h, fun s => by rw [h]; nofun⟩

/-- Witness for C3: a concrete silence update whose upstream silence carries
no `namespace` matcher. -/
theorem c3_post_silence_forbidden_witness :
    postSilence "namespace" ["default"]
      (fun _ => .ok ⟨"802146e0", [⟨"job", "prometheus", false⟩]⟩)
      ⟨"802146e0", [⟨"job", "prometheus", false⟩]⟩ =
      .apiError 403 "forbidden" :=
  (c3_post_silence_forbidden "namespace" ["default"]
    (fun _ => .ok ⟨"802146e0", [⟨"job", "prometheus", false⟩]⟩)
    ⟨"802146e0", [⟨"job", "prometheus", false⟩]⟩
    ⟨"802146e0", [⟨"job", "prometheus", false⟩]⟩
    (by decide) rfl (by decide)).1

/-! ## The rules response filter (`rules.go`) -/

/-- A label attached to a rule (`labels.Label`). -/
structure LabelPair where
  name : String
  value : String
deriving DecidableEq, Repr

/-- A rule is an alerting rule or a recording rule; the filter reads only
its labels (via `rule.Labels()`), so the other fields are omitted. -/
inductive Rule where
  | alerting (rname : String) (labels : List LabelPair)
  | recording (rname : String) (labels : List LabelPair)
deriving DecidableEq, Repr

/-- `rule.Labels()`. -/
def Rule.labels : Rule → List LabelPair
  | .alerting _ ls => ls
  | .recording _ ls => ls

/-- A rule group (`ruleGroup`), restricted to the fields the filter
touches. -/
structure RuleGroup where
  gname : String
  file : String
  rules : List Rule
deriving DecidableEq, Repr

/-- The inner loop of `routes.rules`: a rule is kept when some label equals
the enforced label name with the request's tenant value. -/
def ruleMatches (label lvalue : String) (r : Rule) : Bool :=
  r.labels.any (fun l => l.name == label && l.value == lvalue)

/-- The group loop of `routes.rules`: filter each group's rules, drop groups
left with no rules, keep the others with their matching rules. -/
def filterRules (label lvalue : String) : List RuleGroup → List RuleGroup
  | [] => []
  | rg :: rest =>
    let rules := rg.rules.filter (ruleMatches label lvalue)
    if rules.isEmpty then filterRules label lvalue rest
    else { rg with rules := rules } :: filterRules label lvalue rest

/-- C4: the filtered rules data holds exactly the groups that retain at
least one rule after per-rule filtering, each kept group holding exactly its
matching rules, with empty groups omitted. -/
theorem c4_rules_filter (label lvalue : String) (rgs : List RuleGroup) :
    filterRules label lvalue rgs =
      (rgs.map (fun rg =>
        { rg with rules := rg.rules.filter (ruleMatches label lvalue) })).filter
        (fun rg => !rg.rules.isEmpty) := by
  induction rgs with
  | nil => rfl
  | cons rg rest ih =>
    by_cases hemp : (rg.rules.filter (ruleMatches label lvalue)).isEmpty
    · simp [filterRules, hemp, ih, List.filter_cons]
    · simp only [filterRules, hemp, if_false, Bool.false_eq_true]
      simp [List.filter_cons, hemp, ih]

/-! ## Response rewriting and Content-Length (`modifyAPIResponse`,
`routes.filterSilences`) -/

/-- The Prometheus API envelope (`apiResponse`); `data` stays the raw
message. -/
structure ApiResponse where
  status : String
  data : String
  errorType : String
  errorMessage : String
deriving DecidableEq, Repr

/-- `apiResponse.setData`. -/
def ApiResponse.setData (a : ApiResponse) (v : String) : ApiResponse :=
  { a with data := v }

/-- Outcome of a response filter: body passed through untouched, filter
error (surfaced as a bad-gateway upstream error), or body replaced together
with the `Content-Length` header value. -/
inductive ModifyOutcome where
  | passthrough
  | failed (msg : String)
  | rewritten (body : String) (contentLength : String)
deriving DecidableEq, Repr

/-- `modifyAPIResponse`: non-200 responses pass through; the envelope is
decoded and must have status `success`; the data is rewritten by the
process function; the re-encoded envelope replaces the body and
`Content-Length` is set to its length.  JSON encoding and decoding and the
per-endpoint process function are abstracted as arguments. -/
def modifyAPIResponse (enc : ApiResponse → String)
    (dec : String → Option ApiResponse)
    (process : String → Except String String)
    (statusCode : Nat) (body : String) : ModifyOutcome :=
  if statusCode ≠ 200 then .passthrough
  else
    match dec body with
    | none => .failed "can't decode API response"
    | some apir =>
      if apir.status ≠ "success" then .failed "unexpected response status"
      else
        match process apir.data with
        | .error e => .failed e
        | .ok v =>
          let buf := enc (apir.setData v)
          .rewritten buf (toString buf.length)

/-- `routes.filterSilences`: POST responses and non-200 responses pass
through; otherwise the silence list is decoded, filtered through
`hasMatcherForLabel`, re-encoded, and `Content-Length` is set to the
re-encoded body's length. -/
def filterSilences (enc : List GettableSilence → String)
    (dec : String → Option (List GettableSilence))
    (label : String) (lvalues : List String)
    (method : String) (statusCode : Nat) (body : String) : ModifyOutcome :=
  if method == "POST" then .passthrough
  else if statusCode ≠ 200 then .passthrough
  else
    match dec body with
    | none => .failed "can't decode API response"
    | some sils =>
      let filtered := sils.filter
        (fun s => hasMatcherForLabel s.matchers label lvalues)
      let buf := enc filtered
      .rewritten buf (toString buf.length)

/-- C9: whenever a response filter rewrites the upstream body — for the
rules/alerts envelope filter and for the silences filter alike — the
`Content-Length` header written back equals exactly the length of the
re-encoded body that replaces the original one. -/
theorem c9_content_length (enc : ApiResponse → String)
    (dec : String → Option ApiResponse)
    (process : String → Except String String)
    (encS : List GettableSilence → String)
    (decS : String → Option (List GettableSilence))
    (label : String) (lvalues : List String) (method : String)
    (statusCode : Nat) (body bodyS newBody newBodyS cl clS : String)
    (h : modifyAPIResponse enc dec process statusCode body =
      .rewritten newBody cl)
    (hs : filterSilences encS decS label lvalues method statusCode bodyS =
      .rewritten newBodyS clS) :
    cl = toString newBody.length ∧ clS = toString newBodyS.length := by
  constructor
  · unfold modifyAPIResponse at h
    by_cases hst : statusCode ≠ 200
    · simp [hst] at h
    · simp only [hst, if_false] at h
      cases hdec : dec body with
      | none => rw [hdec] at h; cases h
      | some apir =>
        rw [hdec] at h
        by_cases hsu : apir.status ≠ "success"
        · simp [hsu] at h
        · simp only [hsu, if_false] at h
          cases hproc : process apir.data with
          | error e => rw [hproc] at h; cases h
          | ok v =>
            rw [hproc] at h
            injection h with h1 h2
            rw [← h2, ← h1]
  · unfold filterSilences at hs
    by_cases hm : (method == "POST") = true
    · simp [hm] at hs
    · simp only [hm, Bool.false_eq_true, if_false] at hs
      by_cases hst : statusCode ≠ 200
      · simp [hst] at hs
      · simp only [hst, if_false] at hs
        cases hdec : decS bodyS with
        | none => rw [hdec] at hs; cases hs
        | some sils =>
          rw [hdec] at hs
          injection hs with h1 h2
          rw [← h2, ← h1]

/-- Witness for C9 with concrete encode/decode/process functions. -/
theorem c9_content_length_witness :
    ("21" : String) = toString ("filtered-body-content" : String).length
    ∧ ("2" : String) = toString ("[]" : String).length :=
  c9_content_length
    (fun a => a.data) (fun _ => some ⟨"success", "d", "", ""⟩)
    (fun _ => .ok "filtered-body-content")
    (fun _ => "[]") (fun _ => some []) "namespace" ["default"] "GET"
    200 "b" "b2" "filtered-body-content" "[]" "21" "2" rfl rfl

end PromLabelProxy
